import Mathlib

/-!
# Verification of the transform stage of `src/notebooks/etl.py`

A shallow embedding of the pandas-based ETL transform.  Tables are ordered
column-name lists together with positionally aligned rows of cells.  A cell
is text, a rational number (modelling pandas' numeric cells; the concrete
values settled here are exact in both float64 and ℚ), a calendar date
(modelling a `datetime64` cell), or the missing-value marker (NaN/NaT/None).
-/

inductive Value where
  | null
  | str (s : String)
  | num (q : ℚ)
  | date (y m d : ℤ)
deriving DecidableEq, Repr, Inhabited

structure Table where
  cols : List String
  rows : List (List Value)
deriving DecidableEq, Repr, Inhabited

/-- Cell lookup by column name: the value at the first column named `c`
(pandas label indexing); a missing label or a short row reads as missing. -/
def getCell (cols : List String) (row : List Value) (c : String) : Value :=
  match cols.findIdx? (· == c) with
  | some i => row.getD i Value.null
  | none => Value.null

/-- The cells of column `c`, top to bottom. -/
def colCells (t : Table) (c : String) : List Value :=
  t.rows.map (fun r => getCell t.cols r c)

/-- Column assignment `df[c] = vals`: replaces the column in place when the
label exists, otherwise appends it on the right (pandas assignment). -/
def setCol (t : Table) (c : String) (vals : List Value) : Table :=
  match t.cols.findIdx? (· == c) with
  | some i => { cols := t.cols, rows := List.zipWith (fun r v => r.set i v) t.rows vals }
  | none => { cols := t.cols ++ [c], rows := List.zipWith (fun r v => r ++ [v]) t.rows vals }

/-- Embeds `df.loc[:, cs]`: column selection by name, in the order of `cs`. -/
def selectCols (t : Table) (cs : List String) : Table :=
  { cols := cs, rows := t.rows.map (fun r => cs.map (getCell t.cols r)) }

/-- Strip leading and trailing whitespace from a character list (`str.strip()`
and the whitespace tolerance of the numeric/date parsers). -/
def trimChars (l : List Char) : List Char :=
  List.rdropWhile Char.isWhitespace (l.dropWhile Char.isWhitespace)

/-- Split a character list at every occurrence of `sep` (the field splitting
inside the numeric and date parsers). -/
def splitOnChar (sep : Char) : List Char → List (List Char)
  | [] => [[]]
  | c :: cs =>
    match splitOnChar sep cs with
    | [] => if c = sep then [[], [c]] else [[c]]
    | h :: t => if c = sep then [] :: h :: t else (c :: h) :: t

/-- A nonempty all-digit character run as a natural number (`int(digits)`). -/
def natFromChars (l : List Char) : Option ℕ :=
  if l ≠ [] ∧ l.all Char.isDigit then
    some (l.foldl (fun a c => 10 * a + (c.toNat - '0'.toNat)) 0)
  else none

/-- An unsigned decimal: integer part, optional fractional part.  The
fraction `x.y` with `k` fractional digits denotes `(x·10^k + y) / 10^k`. -/
def parseUnsigned (l : List Char) : Option ℚ :=
  match splitOnChar '.' l with
  | [a] => (natFromChars a).map (fun n => (n : ℚ))
  | [a, b] =>
    match natFromChars a, natFromChars b with
    | some x, some y => some (mkRat (x * 10 ^ b.length + y) (10 ^ b.length))
    | some x, none => if b = [] then some ((x : ℚ)) else none
    | none, some y => if a = [] then some (mkRat y (10 ^ b.length)) else none
    | none, none => none
  | _ => none

/-- Decimal-number parsing as used by `pd.to_numeric` / `float` on a string
(optional sign, integer part, optional fractional part; modelled on the
decimal forms; exponents and specials are out of this model's scope). -/
def parseNum (s : String) : Option ℚ :=
  match trimChars s.data with
  | '-' :: rest => (parseUnsigned rest).map (fun q => -q)
  | '+' :: rest => parseUnsigned rest
  | l => parseUnsigned l

/-- ISO `YYYY-MM-DD` parsing as used by `pd.to_datetime` on the extracts
(other accepted input formats are outside this model). -/
def parseDate (s : String) : Option (ℤ × ℤ × ℤ) :=
  match splitOnChar '-' (trimChars s.data) with
  | [a, b, c] =>
    match natFromChars a, natFromChars b, natFromChars c with
    | some y, some m, some d =>
      if 1 ≤ m ∧ m ≤ 12 ∧ 1 ≤ d ∧ d ≤ 31 then some ((y : ℤ), (m : ℤ), (d : ℤ)) else none
    | _, _, _ => none
  | _ => none

/-- One cell under `pd.to_numeric(_, errors="coerce")`: numbers pass through,
unparsable cells degrade to the missing marker.  (Datetime cells never reach
numeric coercion in this pipeline: the per-entity candidate sets are
disjoint and numeric coercion runs first.) -/
def toNumericCell : Value → Value
  | Value.num q => Value.num q
  | Value.str s => match parseNum s with | some q => Value.num q | none => Value.null
  | Value.null => Value.null
  | Value.date _ _ _ => Value.null

/-- One cell under `pd.to_datetime(_, errors="coerce")`. -/
def toDateCell : Value → Value
  | Value.date y m d => Value.date y m d
  | Value.str s => match parseDate s with | some (y, m, d) => Value.date y m d | none => Value.null
  | _ => Value.null

/-- Map a function over the cells of one named column (no-op when absent). -/
def mapCol (t : Table) (c : String) (f : Value → Value) : Table :=
  match t.cols.findIdx? (· == c) with
  | some i => { cols := t.cols, rows := t.rows.map (fun r => r.set i (f (r.getD i Value.null))) }
  | none => t

/-- Embeds `coerce_numeric(df, cols)` from the source. -/
def coerceNumeric (t : Table) (cs : List String) : Table :=
  cs.foldl (fun acc c => mapCol acc c toNumericCell) t

/-- Embeds `coerce_dates(df, cols)` from the source. -/
def coerceDates (t : Table) (cs : List String) : Table :=
  cs.foldl (fun acc c => mapCol acc c toDateCell) t

/-- First-seen-wins filtering by a projection, the semantics of pandas
`drop_duplicates(keep="first")`; `seen` accumulates projections already kept.
Missing markers compare equal here, as NaN does in `drop_duplicates`. -/
def distinctBy {α β : Type} [DecidableEq β] (f : α → β) : List α → List β → List α
  | [], _ => []
  | a :: as, seen =>
    if f a ∈ seen then distinctBy f as seen else a :: distinctBy f as (f a :: seen)

/-- The key-projection of a row: its cells under the key columns, in order. -/
def keyProj (cols : List String) (ks : List String) (row : List Value) : List Value :=
  ks.map (getCell cols row)

/-- Embeds `dedupe(df, key_cols)` from the source: subset dedupe when a nonempty
key list is given whose columns all exist, whole-row dedupe otherwise
(`reset_index` has no analogue here). -/
def dedupe (t : Table) (keyCols : Option (List String)) : Table :=
  match keyCols with
  | some ks =>
    if ks ≠ [] ∧ ∀ k ∈ ks, k ∈ t.cols then
      { cols := t.cols, rows := distinctBy (keyProj t.cols ks) t.rows [] }
    else
      { cols := t.cols, rows := distinctBy (fun r => r) t.rows [] }
  | none => { cols := t.cols, rows := distinctBy (fun r => r) t.rows [] }

/-- Embeds `[c for c in cands if c in df.columns][:1]`, as an optional key list
(`key or None`). -/
def singleKey (cands : List String) (cols : List String) : Option (List String) :=
  match cands.filter (cols.contains ·) with
  | [] => none
  | k :: _ => some [k]

/-- The per-entity dedup-key choice of the transform loop (lines 106-119). -/
def entityKey (name : String) (cols : List String) : Option (List String) :=
  if name == "customers" then singleKey ["customer_id", "id"] cols
  else if name == "products" then singleKey ["product_id", "id"] cols
  else if name == "orders" then singleKey ["order_id", "id"] cols
  else if name == "order_items" then
    match singleKey ["order_item_id", "id"] cols with
    | some k => some k
    | none =>
      let sub := ["order_id", "product_id", "line_number"].filter (cols.contains ·)
      if 2 ≤ sub.length then some sub else none
  else none

/-- The `numeric_candidates` configuration of `transform`. -/
def numericCandidates (name : String) : List String :=
  if name == "products" then ["price", "cost", "msrp"]
  else if name == "orders" then ["total_amount", "subtotal", "tax", "shipping_cost", "discount"]
  else if name == "order_items" then ["quantity", "unit_price", "line_total", "discount"]
  else []

/-- The `date_candidates` configuration of `transform`. -/
def dateCandidates (name : String) : List String :=
  if name == "orders" then ["order_date", "ship_date", "delivery_date", "created_at", "updated_at"]
  else if name == "customers" then ["created_at", "updated_at", "signup_date"]
  else if name == "products" then ["created_at", "updated_at", "release_date"]
  else if name == "order_items" then ["created_at", "updated_at"]
  else []

/-- The body of the per-entity loop of `transform` (lines 102-120):
numeric coercion, date coercion, then key-directed dedupe. -/
def cleanEntity (name : String) (t : Table) : Table :=
  let t1 := coerceNumeric t (numericCandidates name)
  let t2 := coerceDates t1 (dateCandidates name)
  dedupe t2 (entityKey name t2.cols)

/-- Embeds `float(cell)` as run by `Series.astype(float)`: numbers and missing pass,
strings must parse (else the call raises, here `none`), datetimes raise. -/
def astypeFloat : Value → Option Value
  | Value.num q => some (Value.num q)
  | Value.null => some Value.null
  | Value.str s => (parseNum s).map Value.num
  | Value.date _ _ _ => none

/-- Embeds `df[c].astype(float)` over a whole column: all cells convert or the
conversion raises (`none`), exactly pandas' all-or-nothing `astype`. -/
def colAstypeFloat (t : Table) (c : String) : Option (List Value) :=
  let cells := colCells t c
  if cells.all (fun v => (astypeFloat v).isSome) then
    some (cells.map (fun v => (astypeFloat v).getD Value.null))
  else none

/-- Exact product of two rationals, written through `mkRat` (kept reducible
for evaluation; `ratMul_eq_mul` below identifies it with `·*·`). -/
def ratMul (a b : ℚ) : ℚ := mkRat (a.num * b.num) (a.den * b.den)

/-- Cellwise product with NaN propagation, the pandas `*` on float series. -/
def mulValues : Value → Value → Value
  | Value.num a, Value.num b => Value.num (ratMul a b)
  | _, _ => Value.null

/-- The duplicated derive-totals block (lines 123-128 on the order-item
table and lines 164-166 on the pruned fact table): when `line_total` is
absent but `quantity` and `unit_price` exist, derive it as their float
product; `none` models the `astype` raising. -/
def addLineTotal (t : Table) : Option Table :=
  if "line_total" ∈ t.cols then some t
  else if "quantity" ∈ t.cols ∧ "unit_price" ∈ t.cols then
    match colAstypeFloat t "quantity", colAstypeFloat t "unit_price" with
    | some qs, some us => some (setCol t "line_total" (List.zipWith mulValues qs us))
    | _, _ => none
  else some t

/-- The suffix rule of `merge(..., suffixes=("", sfx))`: a right column that
collides with a left column gets the suffix, the left column keeps its name. -/
def renameCol (lcols : List String) (sfx : String) (c : String) : String :=
  if lcols.contains c then c ++ sfx else c

/-- Embeds `l.merge(r, on=key, how="left", suffixes=("", sfx))`.  `none` models the
raising paths: a key label absent from either side (`KeyError`) or suffixing
that still yields duplicate labels (`MergeError`).  Unmatched left rows keep
missing markers in the right columns; missing keys match each other, as NaN
keys do in pandas merges. -/
def leftMerge (l r : Table) (key : String) (sfx : String) : Option Table :=
  if key ∈ l.cols ∧ key ∈ r.cols then
    match r.cols.findIdx? (· == key) with
    | some ki =>
      let rcols := (r.cols.eraseIdx ki).map (renameCol l.cols sfx)
      let newCols := l.cols ++ rcols
      if newCols.Nodup then
        some { cols := newCols,
               rows := (l.rows.map (fun lr =>
                 let v := getCell l.cols lr key
                 match r.rows.filter (fun rr => decide (getCell r.cols rr key = v)) with
                 | [] => [lr ++ List.replicate rcols.length Value.null]
                 | ms => ms.map (fun rr => lr ++ rr.eraseIdx ki))).flatten }
      else none
    | none => none
  else none

/-- Embeds `is_datetime64_any_dtype(t[c])` at cell level: the column holds at
least one parsed datetime and nothing but datetimes and missing markers.
(A datetime64 column whose cells are all NaT is indistinguishable from a
non-datetime all-missing column in a cell-level model; no settled claim
touches that corner.) -/
def isDatetimeColumn (t : Table) (c : String) : Bool :=
  let cells := colCells t c
  cells.any (fun v => match v with | Value.date _ _ _ => true | _ => false) &&
  cells.all (fun v => match v with | Value.date _ _ _ => true | Value.null => true | _ => false)

def yearOf : Value → Value
  | Value.date y _ _ => Value.num (y : ℚ)
  | _ => Value.null

def monthOf : Value → Value
  | Value.date _ m _ => Value.num (m : ℚ)
  | _ => Value.null

def dayOf : Value → Value
  | Value.date _ _ d => Value.num (d : ℚ)
  | _ => Value.null

/-- Lines 169-172: derive `order_year`/`order_month`/`order_day` from the
order-date column when it is a datetime column. -/
def addDateParts (t : Table) (c : String) : Table :=
  if isDatetimeColumn t c then
    let cells := colCells t c
    setCol (setCol (setCol t "order_year" (cells.map yearOf))
      "order_month" (cells.map monthOf)) "order_day" (cells.map dayOf)
  else t

/-- The fact-building block of `transform` (lines 130-174), on the four
cleaned tables.  Outer `none` models an exception escaping the block;
`some none` is the skip path (no fact table in the output);
`some (some f)` is a built fact table. -/
def buildFact (cust ords items prods : Table) : Option (Option Table) :=
  let cid : Option String :=
    if "customer_id" ∈ ords.cols then some "customer_id"
    else if "customer_id" ∈ cust.cols then some "customer_id" else none
  let oid : Option String :=
    if "order_id" ∈ items.cols then some "order_id"
    else if "order_id" ∈ ords.cols then some "order_id" else none
  let pid : Option String :=
    if "product_id" ∈ items.cols then some "product_id"
    else if "product_id" ∈ prods.cols then some "product_id" else none
  let odc : Option String := if "order_date" ∈ ords.cols then some "order_date" else none
  match cid, oid, pid with
  | some c, some o, some p =>
    if c ∈ ords.cols ∧ o ∈ ords.cols ∧ p ∈ items.cols then
      match leftMerge items ords o "_order" with
      | none => none
      | some f0 =>
        match (if c ∈ f0.cols ∧ c ∈ cust.cols then leftMerge f0 cust c "_customer" else some f0) with
        | none => none
        | some f1 =>
          match (if p ∈ f1.cols ∧ p ∈ prods.cols then leftMerge f1 prods p "_product" else some f1) with
          | none => none
          | some f2 =>
            let keepDates := (match odc with | some dc => [dc] | none => []).filter (f2.cols.contains ·)
            let keepNums := ["quantity", "unit_price", "line_total", "total_amount"].filter (f2.cols.contains ·)
            let idCols := [o, c, p, "order_item_id"].filter (f2.cols.contains ·)
            let maybeDesc := ["status", "state", "city", "category", "sub_category", "brand"].filter (f2.cols.contains ·)
            let baseCols := distinctBy (fun s => s) (idCols ++ keepDates ++ keepNums ++ maybeDesc) []
            let f3 := selectCols f2 baseCols
            match addLineTotal f3 with
            | none => none
            | some f4 =>
              some (some (match odc with | some dc => addDateParts f4 dc | none => f4))
    else some none
  | _, _, _ => some none

/-- The four extracted entity tables handed to `transform`. -/
structure Dfs where
  customers : Table
  orders : Table
  order_items : Table
  products : Table
deriving DecidableEq, Repr, Inhabited

/-- The output of `transform`: the four cleaned entity tables plus the
conditionally produced `fact_order_items` table. -/
structure TOut where
  customers : Table
  orders : Table
  order_items : Table
  products : Table
  fact : Option Table
deriving DecidableEq, Repr, Inhabited

/-- Embeds `transform(dfs)` (lines 86-176).  `none` models an exception escaping
the function; every non-exceptional run yields the four cleaned tables and
optionally the fact table. -/
def transform (d : Dfs) : Option TOut :=
  let cust := cleanEntity "customers" d.customers
  let ords := cleanEntity "orders" d.orders
  let items0 := cleanEntity "order_items" d.order_items
  let prods := cleanEntity "products" d.products
  match addLineTotal items0 with
  | none => none
  | some items =>
    match buildFact cust ords items prods with
    | none => none
    | some f =>
      some { customers := cust, orders := ords, order_items := items, products := prods, fact := f }

/-- The fact table of a run, when `transform` returns and produced one. -/
def factOf (d : Dfs) : Option Table := (transform d).bind TOut.fact

/-! ## The `FILES` configuration (lines 9-15) -/

def DATA_DIR : String := "/Users/thomassimmons/c/new/data"

/-- Embeds `os.path.join` on POSIX paths: an absolute second component discards
the first.  (Leading/trailing-slash tests are written on the character
list so that concrete paths evaluate.) -/
def joinPath (a b : String) : String :=
  if b.data.head? = some '/' then b
  else if a.data.getLast? = some '/' then a ++ b
  else a ++ "/" ++ b

/-- The `FILES` dictionary: logical entity name to configured extract path. -/
def FILES : List (String × String) :=
  [("products", joinPath DATA_DIR "/Users/thomassimmons/c/new/data/products.csv"),
   ("orders", joinPath DATA_DIR "/Users/thomassimmons/c/new/data/products.csv"),
   ("order_items", joinPath DATA_DIR "/Users/thomassimmons/c/new/data/order_items.csv"),
   ("customers", joinPath DATA_DIR "/Users/thomassimmons/c/new/data/customers.csv")]

/-- Looks up `FILES[name]`. -/
def filePath (name : String) : Option String :=
  (FILES.find? (fun p => p.1 == name)).map Prod.snd

/-! ## The column-name normalizer `snake` (lines 20-24)

`snake` is modelled on character lists: `\w` is modelled as ASCII
alphanumerics plus underscore and lower-casing as the ASCII case map,
matching the regex and `str.lower` on the ASCII column names this
pipeline sees. -/

def isWordChar (c : Char) : Bool := c.isAlphanum || c == '_'

/-- Embeds `re.sub(r"[^\w]+", "_", s)`: every maximal run of non-word characters
becomes a single underscore. -/
def subNonWord : List Char → List Char
  | [] => []
  | c :: cs =>
    if isWordChar c then c :: subNonWord cs
    else '_' :: subNonWord (cs.dropWhile (fun x => ! isWordChar x))
termination_by l => l.length
decreasing_by
  · simp only [List.length_cons]; omega
  · have := ((cs.dropWhile_sublist (fun x => ! isWordChar x))).length_le
    simp only [List.length_cons]; omega

/-- Embeds `re.sub(r"__+", "_", s)`: runs of underscores collapse to one (a lone
underscore maps to itself, so runs of length ≥ 1 collapse identically). -/
def collapseUnd : List Char → List Char
  | [] => []
  | c :: cs =>
    if c = '_' then c :: collapseUnd (cs.dropWhile (· = '_'))
    else c :: collapseUnd cs
termination_by l => l.length
decreasing_by
  · have := ((cs.dropWhile_sublist (fun x => decide (x = '_')))).length_le
    simp only [List.length_cons]; omega
  · simp only [List.length_cons]; omega

/-- Embeds `s.strip("_")`. -/
def stripUnd (l : List Char) : List Char :=
  List.rdropWhile (· = '_') (l.dropWhile (· = '_'))

/-- Embeds `s.lower()` (ASCII case map). -/
def lowerList (l : List Char) : List Char := l.map Char.toLower

/-- The full `snake` pipeline on a character list: strip whitespace,
replace non-word runs, collapse underscores, strip underscores, lower. -/
def snakeList (l : List Char) : List Char :=
  lowerList (stripUnd (collapseUnd (subNonWord (trimChars l))))

/-- Embeds `snake(s)` from the source. -/
def snake (s : String) : String := ⟨snakeList s.data⟩

/-- Embeds `clean_columns(df)` from the source. -/
def cleanColumns (t : Table) : Table :=
  { cols := t.cols.map snake, rows := t.rows }

/-! ## Well-formedness and spec predicates -/

/-- A table is rectangular: every row has one cell per column.  DataFrames
are rectangular by construction, so runs of the source always satisfy it. -/
def Rect (t : Table) : Prop := ∀ r ∈ t.rows, r.length = t.cols.length

instance (t : Table) : Decidable (Rect t) := List.decidableBAll _ t.rows

/-- Rowwise derived-total correctness: wherever the quantity and unit-price
cells of a row are numeric, the row's line-total cell is exactly their
product. -/
def lineTotalIsProduct (t : Table) : Prop :=
  ∀ i, i < t.rows.length → ∀ a b : ℚ,
    getCell t.cols (t.rows.getD i []) "quantity" = Value.num a →
    getCell t.cols (t.rows.getD i []) "unit_price" = Value.num b →
    getCell t.cols (t.rows.getD i []) "line_total" = Value.num (a * b)

/-! ## Concrete runs used by counterexamples and witnesses -/

/-- The spec's §8 scenario: `customers=[{id:1,name:" Al "}]`,
`products=[{product_id:10,price:"9.99"}]`,
`orders=[{order_id:100,customer_id:1,order_date:"2024-01-05"}]`,
`order_items=[{order_id:100,product_id:10,quantity:"2",unit_price:"9.99"}]`. -/
def c3in : Dfs :=
  { customers := { cols := ["id", "name"], rows := [[Value.num 1, Value.str " Al "]] }
    orders := { cols := ["order_id", "customer_id", "order_date"],
                rows := [[Value.num 100, Value.num 1, Value.str "2024-01-05"]] }
    order_items := { cols := ["order_id", "product_id", "quantity", "unit_price"],
                     rows := [[Value.num 100, Value.num 10, Value.str "2", Value.str "9.99"]] }
    products := { cols := ["product_id", "price"], rows := [[Value.num 10, Value.str "9.99"]] } }

/-- A run whose product join cannot be established (`product_id` is absent
from the product table) while the fact guard passes. -/
def c1in : Dfs :=
  { customers := { cols := ["customer_id", "name"], rows := [[Value.num 1, Value.str "Al"]] }
    orders := { cols := ["order_id", "customer_id"], rows := [[Value.num 100, Value.num 1]] }
    order_items := { cols := ["order_id", "product_id", "quantity", "unit_price"],
                     rows := [[Value.num 100, Value.num 10, Value.num 2, Value.num 3]] }
    products := { cols := ["id", "price"], rows := [[Value.num 10, Value.num 5]] } }

/-- A run whose order key is present in the order table but absent from the
order-item table, so the guard passes and the first merge raises. -/
def c2in : Dfs :=
  { customers := { cols := ["customer_id"], rows := [[Value.num 1]] }
    orders := { cols := ["order_id", "customer_id"], rows := [[Value.num 100, Value.num 1]] }
    order_items := { cols := ["product_id", "quantity"], rows := [[Value.num 10, Value.num 2]] }
    products := { cols := ["product_id"], rows := [[Value.num 10]] } }

/-- A run whose order-item table lacks `line_total` but has numeric
`quantity` and `unit_price` columns. -/
def c4in : Dfs :=
  { customers := { cols := ["id"], rows := [[Value.num 1]] }
    orders := { cols := ["order_id", "customer_id"], rows := [[Value.num 100, Value.num 1]] }
    order_items := { cols := ["order_id", "product_id", "quantity", "unit_price"],
                     rows := [[Value.num 100, Value.num 10, Value.num 3, Value.num 7]] }
    products := { cols := ["product_id"], rows := [[Value.num 10]] } }

/-- A run that produces a fact table. -/
def c5in : Dfs :=
  { customers := { cols := ["customer_id"], rows := [[Value.num 1]] }
    orders := { cols := ["order_id", "customer_id"], rows := [[Value.num 100, Value.num 1]] }
    order_items := { cols := ["order_id", "product_id"],
                     rows := [[Value.num 100, Value.num 10], [Value.num 100, Value.num 11]] }
    products := { cols := ["product_id"], rows := [[Value.num 10]] } }

def c5out : TOut := (transform c5in).getD default

def c5fact : Table := c5out.fact.getD default

/-- A table with a duplicated key value and differing non-key cells. -/
def c6t : Table :=
  { cols := ["k", "x"],
    rows := [[Value.num 1, Value.num 1], [Value.num 1, Value.num 2], [Value.num 2, Value.num 3]] }

/-- An order-item table with no surrogate key and two composite-key
columns present. -/
def c7t : Table :=
  { cols := ["order_id", "product_id", "quantity"],
    rows := [[Value.num 100, Value.num 10, Value.num 2],
             [Value.num 100, Value.num 10, Value.num 5],
             [Value.num 100, Value.num 11, Value.num 1]] }

/-- A table whose first two rows have a missing key cell. -/
def c10t : Table :=
  { cols := ["customer_id", "name"],
    rows := [[Value.null, Value.str "a"], [Value.null, Value.str "b"], [Value.num 1, Value.str "c"]] }

/-! ## Helper lemmas: first-seen-wins dedupe -/

theorem distinctBy_sublist {α β : Type} [DecidableEq β] (f : α → β) :
    ∀ (l : List α) (seen : List β), (distinctBy f l seen).Sublist l := by
  intro l
  induction l with
  | nil => intro seen; simp [distinctBy]
  | cons a as ih =>
    intro seen
    rw [distinctBy]
    by_cases h : f a ∈ seen
    · simp only [if_pos h]
      exact (ih seen).trans (List.sublist_cons_self a as)
    · simp only [if_neg h]
      exact (ih (f a :: seen)).cons₂ a

theorem distinctBy_not_mem_seen {α β : Type} [DecidableEq β] (f : α → β) :
    ∀ (l : List α) (seen : List β) (a : α), a ∈ distinctBy f l seen → f a ∉ seen := by
  intro l
  induction l with
  | nil => intro seen a h; simp [distinctBy] at h
  | cons x xs ih =>
    intro seen a h
    rw [distinctBy] at h
    by_cases hx : f x ∈ seen
    · simp only [if_pos hx] at h
      exact ih seen a h
    · simp only [if_neg hx, List.mem_cons] at h
      rcases h with rfl | h
      · exact hx
      · intro hmem
        exact ih (f x :: seen) a h (List.mem_cons_of_mem _ hmem)

theorem distinctBy_map_nodup {α β : Type} [DecidableEq β] (f : α → β) :
    ∀ (l : List α) (seen : List β), ((distinctBy f l seen).map f).Nodup := by
  intro l
  induction l with
  | nil => intro seen; simp [distinctBy]
  | cons x xs ih =>
    intro seen
    rw [distinctBy]
    by_cases hx : f x ∈ seen
    · simp only [if_pos hx]; exact ih seen
    · simp only [if_neg hx, List.map_cons, List.nodup_cons]
      refine ⟨?_, ih (f x :: seen)⟩
      intro hmem
      obtain ⟨a, ha, hfa⟩ := List.mem_map.mp hmem
      exact distinctBy_not_mem_seen f xs (f x :: seen) a ha (hfa ▸ List.mem_cons_self _ _)

theorem distinctBy_countP {α β : Type} [DecidableEq β] (f : α → β) :
    ∀ (l : List α) (seen : List β) (p : β), p ∉ seen →
      (distinctBy f l seen).countP (fun a => decide (f a = p)) =
        min 1 (l.countP (fun a => decide (f a = p))) := by
  intro l
  induction l with
  | nil => intro seen p _; simp [distinctBy]
  | cons x xs ih =>
    intro seen p hp
    rw [distinctBy]
    by_cases hx : f x ∈ seen
    · have hxp : f x ≠ p := fun h => hp (h ▸ hx)
      simp only [if_pos hx, List.countP_cons, decide_eq_true_eq, if_neg hxp, Nat.add_zero]
      exact ih seen p hp
    · simp only [if_neg hx, List.countP_cons, decide_eq_true_eq]
      by_cases hxp : f x = p
      · subst hxp
        simp only [if_pos rfl]
        have h0 : (distinctBy f xs (f x :: seen)).countP (fun a => decide (f a = f x)) = 0 := by
          rw [List.countP_eq_zero]
          intro a ha
          simp only [decide_eq_true_eq]
          intro hfa
          exact distinctBy_not_mem_seen f xs (f x :: seen) a ha (hfa ▸ List.mem_cons_self _ _)
        rw [h0]
        simp only [if_true, inf_eq_min]
        omega
      · simp only [if_neg hxp, Nat.add_zero]
        exact ih (f x :: seen) p (by simp [hp, Ne.symm hxp])

theorem distinctBy_find? {α β : Type} [DecidableEq β] (f : α → β) :
    ∀ (l : List α) (seen : List β) (p : β), p ∉ seen →
      (distinctBy f l seen).find? (fun a => decide (f a = p)) =
        l.find? (fun a => decide (f a = p)) := by
  intro l
  induction l with
  | nil => intro seen p _; simp [distinctBy]
  | cons x xs ih =>
    intro seen p hp
    rw [distinctBy]
    by_cases hx : f x ∈ seen
    · have hxp : (f x = p) = False := by
        simp only [eq_iff_iff, iff_false]
        exact fun h => hp (h ▸ hx)
      simp only [if_pos hx, List.find?_cons, hxp, decide_False]
      exact ih seen p hp
    · rw [if_neg hx]
      by_cases hxp : f x = p
      · simp [List.find?_cons, hxp]
      · simp only [List.find?_cons, hxp, decide_False]
        exact ih (f x :: seen) p (by simp [hp, Ne.symm hxp])

/-! ## Helper lemmas: columns and lengths through the pipeline -/

theorem mapCol_cols (t : Table) (c : String) (f : Value → Value) :
    (mapCol t c f).cols = t.cols := by
  rw [mapCol]
  cases t.cols.findIdx? (· == c) <;> rfl

theorem mapCol_rows_length (t : Table) (c : String) (f : Value → Value) :
    (mapCol t c f).rows.length = t.rows.length := by
  rw [mapCol]
  cases t.cols.findIdx? (· == c) <;> simp

theorem coerceNumeric_cols (t : Table) (cs : List String) :
    (coerceNumeric t cs).cols = t.cols := by
  rw [coerceNumeric]
  induction cs generalizing t with
  | nil => rfl
  | cons c cs ih => rw [List.foldl_cons, ih, mapCol_cols]

theorem coerceDates_cols (t : Table) (cs : List String) :
    (coerceDates t cs).cols = t.cols := by
  rw [coerceDates]
  induction cs generalizing t with
  | nil => rfl
  | cons c cs ih => rw [List.foldl_cons, ih, mapCol_cols]

theorem dedupe_cols (t : Table) (k : Option (List String)) : (dedupe t k).cols = t.cols := by
  cases k with
  | none => rfl
  | some ks =>
    show (if ks ≠ [] ∧ ∀ x ∈ ks, x ∈ t.cols then _ else _ : Table).cols = t.cols
    split <;> rfl

theorem cleanEntity_cols (name : String) (t : Table) : (cleanEntity name t).cols = t.cols := by
  rw [cleanEntity, dedupe_cols, coerceDates_cols, coerceNumeric_cols]

theorem setCol_rows_length (t : Table) (c : String) (vals : List Value)
    (h : vals.length = t.rows.length) : (setCol t c vals).rows.length = t.rows.length := by
  rw [setCol]
  cases t.cols.findIdx? (· == c) <;> simp [h]

theorem colCells_length (t : Table) (c : String) : (colCells t c).length = t.rows.length := by
  rw [colCells, List.length_map]

theorem colAstypeFloat_length (t : Table) (c : String) (qs : List Value)
    (h : colAstypeFloat t c = some qs) : qs.length = t.rows.length := by
  rw [colAstypeFloat] at h
  split at h
  · rw [← Option.some_inj.mp h, List.length_map, colCells_length]
  · exact absurd h (by simp)

theorem addLineTotal_rows_length (t u : Table) (h : addLineTotal t = some u) :
    u.rows.length = t.rows.length := by
  rw [addLineTotal] at h
  split at h
  · rw [← Option.some_inj.mp h]
  · split at h
    · split at h
      · rename_i qs us hq hu
        rw [← Option.some_inj.mp h]
        refine setCol_rows_length _ _ _ ?_
        rw [List.length_zipWith, colAstypeFloat_length t _ qs hq, colAstypeFloat_length t _ us hu,
          Nat.min_self]
      · exact absurd h (by simp)
    · rw [← Option.some_inj.mp h]

theorem addDateParts_rows_length (t : Table) (c : String) :
    (addDateParts t c).rows.length = t.rows.length := by
  rw [addDateParts]
  split
  · rw [setCol_rows_length, setCol_rows_length, setCol_rows_length]
    · rw [List.length_map, colCells_length]
    · rw [List.length_map, colCells_length, setCol_rows_length]
      rw [List.length_map, colCells_length]
    · rw [List.length_map, colCells_length, setCol_rows_length, setCol_rows_length]
      · rw [List.length_map, colCells_length]
      · rw [List.length_map, colCells_length, setCol_rows_length]
        rw [List.length_map, colCells_length]
  · rfl

theorem selectCols_rows_length (t : Table) (cs : List String) :
    (selectCols t cs).rows.length = t.rows.length := by
  rw [selectCols, List.length_map]

/-- In a list whose images under `f` are pairwise distinct, at most one
element maps to any given value. -/
theorem filter_eq_length_le_one {α β : Type} [DecidableEq β] (f : α → β) (l : List α)
    (h : (l.map f).Nodup) (v : β) :
    (l.filter (fun a => decide (f a = v))).length ≤ 1 := by
  induction l with
  | nil => simp
  | cons x xs ih =>
    rw [List.map_cons, List.nodup_cons] at h
    by_cases hx : f x = v
    · have hnil : xs.filter (fun a => decide (f a = v)) = [] := by
        rw [List.filter_eq_nil_iff]
        intro a ha
        simp only [decide_eq_true_eq]
        intro hfa
        exact h.1 (hx ▸ hfa ▸ List.mem_map_of_mem f ha)
      simp [List.filter_cons, hx, hnil]
    · simp only [List.filter_cons, hx, decide_False, if_false]
      exact ih h.2

/-- Flattening blocks of size at most one yields at most one element per
block. -/
theorem flatten_blocks_le {α γ : Type} (L : List γ) (F : γ → List α)
    (hb : ∀ x ∈ L, (F x).length ≤ 1) : ((L.map F).flatten).length ≤ L.length := by
  induction L with
  | nil => simp
  | cons x xs ih =>
    simp only [List.map_cons, List.flatten_cons, List.length_append, List.length_cons]
    have h1 := hb x (List.mem_cons_self _ _)
    have h2 := ih (fun y hy => hb y (List.mem_cons_of_mem _ hy))
    omega

/-- A left merge against a right table whose key cells are pairwise distinct
never grows the left row count. -/
theorem leftMerge_rows_le (l r : Table) (key sfx : String) (m : Table)
    (h : leftMerge l r key sfx = some m)
    (hr : (r.rows.map (fun rr => getCell r.cols rr key)).Nodup) :
    m.rows.length ≤ l.rows.length := by
  rw [leftMerge] at h
  split at h
  · split at h
    · dsimp only at h
      split at h
      · rename_i ki hki hnd
        rw [← Option.some_inj.mp h]
        refine flatten_blocks_le _ _ ?_
        intro lr _
        split
        · simp
        · rw [List.length_map]
          exact filter_eq_length_le_one _ r.rows hr _
      · exact absurd h (by simp)
    · exact absurd h (by simp)
  · exact absurd h (by simp)

/-- After `dedupe` on a present single-column key, the key cells of the
result are pairwise distinct. -/
theorem dedupe_single_key_nodup (t : Table) (k : String) (hk : k ∈ t.cols) :
    ((dedupe t (some [k])).rows.map (fun r => getCell t.cols r k)).Nodup := by
  have hg : ([k] ≠ [] ∧ ∀ x ∈ [k], x ∈ t.cols) := by simp [hk]
  have hrows : (dedupe t (some [k])).rows = distinctBy (keyProj t.cols [k]) t.rows [] := by
    show (if [k] ≠ [] ∧ ∀ x ∈ [k], x ∈ t.cols then _ else _ : Table).rows = _
    rw [if_pos hg]
  rw [hrows]
  have hnd := distinctBy_map_nodup (keyProj t.cols [k]) t.rows []
  have hmm : (distinctBy (keyProj t.cols [k]) t.rows []).map (keyProj t.cols [k]) =
      ((distinctBy (keyProj t.cols [k]) t.rows []).map (fun r => getCell t.cols r k)).map
        (fun v => [v]) := by
    rw [List.map_map]
    rfl
  rw [hmm] at hnd
  exact hnd.of_map _

theorem singleKey_head (c0 : String) (rest : List String) (cols : List String) (h : c0 ∈ cols) :
    singleKey (c0 :: rest) cols = some [c0] := by
  rw [singleKey, List.filter_cons, if_pos (by simpa using h)]

/-- The cleaned entity keeps its key-cell distinctness: orders dedupe on
`order_id` whenever that column exists. -/
theorem cleanEntity_orders_nodup (t : Table) (h : "order_id" ∈ t.cols) :
    ((cleanEntity "orders" t).rows.map
      (fun r => getCell (cleanEntity "orders" t).cols r "order_id")).Nodup := by
  rw [cleanEntity]
  have hc : (coerceDates (coerceNumeric t (numericCandidates "orders"))
      (dateCandidates "orders")).cols = t.cols := by
    rw [coerceDates_cols, coerceNumeric_cols]
  have hkey : entityKey "orders" (coerceDates (coerceNumeric t (numericCandidates "orders"))
      (dateCandidates "orders")).cols = some ["order_id"] := by
    rw [hc, entityKey]
    simp only [String.reduceBEq, Bool.false_eq_true, if_false, if_true]
    exact singleKey_head _ _ _ h
  rw [hkey, dedupe_cols, hc]
  exact hc ▸ dedupe_single_key_nodup _ "order_id" (hc ▸ h)

/-- Generic form: whatever single-column key `entityKey` discovers, the
cleaned entity's cells under that key are pairwise distinct. -/
theorem cleanEntity_key_nodup (name : String) (t : Table) (k : String)
    (hkey : entityKey name t.cols = some [k]) (hk : k ∈ t.cols) :
    ((cleanEntity name t).rows.map (fun r => getCell t.cols r k)).Nodup := by
  rw [cleanEntity]
  have hc : (coerceDates (coerceNumeric t (numericCandidates name))
      (dateCandidates name)).cols = t.cols := by
    rw [coerceDates_cols, coerceNumeric_cols]
  rw [hc, hkey]
  exact hc ▸ dedupe_single_key_nodup _ k (hc ▸ hk)

theorem cleanEntity_customers_nodup (t : Table) (h : "customer_id" ∈ t.cols) :
    ((cleanEntity "customers" t).rows.map (fun r => getCell t.cols r "customer_id")).Nodup := by
  refine cleanEntity_key_nodup _ _ _ ?_ h
  rw [entityKey]
  simp only [String.reduceBEq, Bool.false_eq_true, if_false, if_true]
  exact singleKey_head _ _ _ h

theorem cleanEntity_products_nodup (t : Table) (h : "product_id" ∈ t.cols) :
    ((cleanEntity "products" t).rows.map (fun r => getCell t.cols r "product_id")).Nodup := by
  refine cleanEntity_key_nodup _ _ _ ?_ h
  rw [entityKey]
  simp only [String.reduceBEq, Bool.false_eq_true, if_false, if_true]
  exact singleKey_head _ _ _ h

theorem if_if_some_eq {P Q : Prop} [Decidable P] [Decidable Q] {s c : String}
    (h : (if P then some s else if Q then some s else none) = some c) : c = s := by
  split at h
  · exact (Option.some_inj.mp h).symm
  · split at h
    · exact (Option.some_inj.mp h).symm
    · exact absurd h (by simp)

/-- Any fact table built from the four cleaned entities has at most as many
rows as the order-item table, provided each dimension table is distinct on
its join key. -/
theorem buildFact_fact_le (cust ords items prods f : Table)
    (hords : "order_id" ∈ ords.cols →
      (ords.rows.map (fun r => getCell ords.cols r "order_id")).Nodup)
    (hcust : "customer_id" ∈ cust.cols →
      (cust.rows.map (fun r => getCell cust.cols r "customer_id")).Nodup)
    (hprods : "product_id" ∈ prods.cols →
      (prods.rows.map (fun r => getCell prods.cols r "product_id")).Nodup)
    (h : buildFact cust ords items prods = some (some f)) :
    f.rows.length ≤ items.rows.length := by
  rw [buildFact.eq_def] at h
  dsimp only at h
  generalize hcid : (if "customer_id" ∈ ords.cols then some "customer_id"
    else if "customer_id" ∈ cust.cols then some "customer_id" else none) = cidOpt at h
  generalize hoid : (if "order_id" ∈ items.cols then some "order_id"
    else if "order_id" ∈ ords.cols then some "order_id" else none) = oidOpt at h
  generalize hpid : (if "product_id" ∈ items.cols then some "product_id"
    else if "product_id" ∈ prods.cols then some "product_id" else none) = pidOpt at h
  cases cidOpt with
  | none => exact absurd (Option.some_inj.mp h) (by simp)
  | some c =>
  cases oidOpt with
  | none => exact absurd (Option.some_inj.mp h) (by simp)
  | some o =>
  cases pidOpt with
  | none => exact absurd (Option.some_inj.mp h) (by simp)
  | some p =>
  obtain rfl : c = "customer_id" := if_if_some_eq hcid
  obtain rfl : o = "order_id" := if_if_some_eq hoid
  obtain rfl : p = "product_id" := if_if_some_eq hpid
  dsimp only at h
  by_cases hguard : "customer_id" ∈ ords.cols ∧ "order_id" ∈ ords.cols ∧ "product_id" ∈ items.cols
  case neg =>
    rw [if_neg hguard] at h
    exact absurd (Option.some_inj.mp h) (by simp)
  case pos =>
  obtain ⟨hg1, hg2, hg3⟩ := hguard
  rw [if_pos ⟨hg1, hg2, hg3⟩] at h
  rcases hm1 : leftMerge items ords "order_id" "_order" with _ | f0
  · rw [hm1] at h; exact absurd h (by simp)
  rw [hm1] at h
  dsimp only at h
  rcases hm2 : (if "customer_id" ∈ f0.cols ∧ "customer_id" ∈ cust.cols then
      leftMerge f0 cust "customer_id" "_customer" else some f0) with _ | f1
  · rw [hm2] at h; exact absurd h (by simp)
  rw [hm2] at h
  dsimp only at h
  rcases hm3 : (if "product_id" ∈ f1.cols ∧ "product_id" ∈ prods.cols then
      leftMerge f1 prods "product_id" "_product" else some f1) with _ | f2
  · rw [hm3] at h; exact absurd h (by simp)
  rw [hm3] at h
  dsimp only at h
  split at h
  case h_1 => exact absurd h (by simp)
  case h_2 f4 hm4 =>
  have hf : f = (match (if "order_date" ∈ ords.cols then some "order_date" else none) with
      | some dc => addDateParts f4 dc | none => f4) := by
    have h0 := Option.some_inj.mp h
    exact (Option.some_inj.mp h0).symm
  have h5 : f.rows.length = f4.rows.length := by
    rw [hf]
    by_cases hod : "order_date" ∈ ords.cols
    · simp only [if_pos hod]
      exact addDateParts_rows_length _ _
    · simp only [if_neg hod]
  have h4 : f4.rows.length = f2.rows.length := by
    rw [addLineTotal_rows_length _ _ hm4, selectCols_rows_length]
  have h3 : f2.rows.length ≤ f1.rows.length := by
    revert hm3
    split
    · rename_i hc3
      intro hm3
      exact leftMerge_rows_le f1 prods _ _ f2 hm3 (hprods hc3.2)
    · intro hm3
      rw [Option.some_inj.mp hm3]
  have h2 : f1.rows.length ≤ f0.rows.length := by
    revert hm2
    split
    · rename_i hc2
      intro hm2
      exact leftMerge_rows_le f0 cust _ _ f1 hm2 (hcust hc2.2)
    · intro hm2
      rw [Option.some_inj.mp hm2]
  have h1 : f0.rows.length ≤ items.rows.length :=
    leftMerge_rows_le items ords _ _ f0 hm1 (hords hg2)
  omega

/-- Unfolding a successful `transform` run into its stages. -/
theorem transform_some_elim (d : Dfs) (out : TOut) (h : transform d = some out) :
    ∃ items fct,
      addLineTotal (cleanEntity "order_items" d.order_items) = some items ∧
      buildFact (cleanEntity "customers" d.customers) (cleanEntity "orders" d.orders)
        items (cleanEntity "products" d.products) = some fct ∧
      out = { customers := cleanEntity "customers" d.customers,
              orders := cleanEntity "orders" d.orders,
              order_items := items,
              products := cleanEntity "products" d.products,
              fact := fct } := by
  rw [transform.eq_def] at h
  dsimp only at h
  rcases hA : addLineTotal (cleanEntity "order_items" d.order_items) with _ | items
  · rw [hA] at h; exact absurd h (by simp)
  rw [hA] at h
  dsimp only at h
  rcases hB : buildFact (cleanEntity "customers" d.customers) (cleanEntity "orders" d.orders)
      items (cleanEntity "products" d.products) with _ | fct
  · rw [hB] at h; exact absurd h (by simp)
  rw [hB] at h
  dsimp only at h
  exact ⟨items, fct, rfl, hB, (Option.some_inj.mp h).symm⟩

theorem if_if_none {P Q : Prop} [Decidable P] [Decidable Q] {s : String}
    (h : (if P then some s else if Q then some s else none) = none) : ¬P ∧ ¬Q := by
  by_cases hp : P
  · rw [if_pos hp] at h; exact absurd h (by simp)
  · rw [if_neg hp] at h
    by_cases hq : Q
    · rw [if_pos hq] at h; exact absurd h (by simp)
    · exact ⟨hp, hq⟩

theorem findIdx_beq_none (cols : List String) (c : String) (hc : c ∉ cols) :
    cols.findIdx? (· == c) = none := by
  rw [List.findIdx?_eq_none_iff]
  intro x hx
  simp only [beq_eq_false_iff_ne, ne_eq]
  exact fun hxc => hc (hxc ▸ hx)

theorem addLineTotal_cols (t u : Table) (h : addLineTotal t = some u) :
    u.cols = t.cols ∨ u.cols = t.cols ++ ["line_total"] := by
  rw [addLineTotal] at h
  split at h
  · left; rw [← Option.some_inj.mp h]
  · rename_i hlt
    split at h
    · split at h
      · right
        rw [← Option.some_inj.mp h, setCol, findIdx_beq_none _ _ hlt]
      · exact absurd h (by simp)
    · left; rw [← Option.some_inj.mp h]

/-- Whether a fact table comes out of a successful fact-building stage is
decided exactly by the source's guard. -/
theorem buildFact_some_isSome (cust ords items prods : Table) (fct : Option Table)
    (h : buildFact cust ords items prods = some fct) :
    fct.isSome = true ↔
      ("customer_id" ∈ ords.cols ∧ "order_id" ∈ ords.cols ∧ "product_id" ∈ items.cols) := by
  rw [buildFact.eq_def] at h
  dsimp only at h
  generalize hcid : (if "customer_id" ∈ ords.cols then some "customer_id"
    else if "customer_id" ∈ cust.cols then some "customer_id" else none) = cidOpt at h
  generalize hoid : (if "order_id" ∈ items.cols then some "order_id"
    else if "order_id" ∈ ords.cols then some "order_id" else none) = oidOpt at h
  generalize hpid : (if "product_id" ∈ items.cols then some "product_id"
    else if "product_id" ∈ prods.cols then some "product_id" else none) = pidOpt at h
  cases cidOpt with
  | none =>
    obtain ⟨hnp, _⟩ := if_if_none hcid
    obtain rfl : fct = none := (Option.some_inj.mp h).symm
    simp [hnp]
  | some c =>
  cases oidOpt with
  | none =>
    obtain ⟨_, hnq⟩ := if_if_none hoid
    obtain rfl : fct = none := (Option.some_inj.mp h).symm
    simp [hnq]
  | some o =>
  cases pidOpt with
  | none =>
    obtain ⟨hnp, _⟩ := if_if_none hpid
    obtain rfl : fct = none := (Option.some_inj.mp h).symm
    simp [hnp]
  | some p =>
  obtain rfl : c = "customer_id" := if_if_some_eq hcid
  obtain rfl : o = "order_id" := if_if_some_eq hoid
  obtain rfl : p = "product_id" := if_if_some_eq hpid
  dsimp only at h
  by_cases hguard : "customer_id" ∈ ords.cols ∧ "order_id" ∈ ords.cols ∧ "product_id" ∈ items.cols
  case neg =>
    rw [if_neg hguard] at h
    obtain rfl : fct = none := (Option.some_inj.mp h).symm
    simp [hguard]
  case pos =>
  rw [if_pos hguard] at h
  rcases hm1 : leftMerge items ords "order_id" "_order" with _ | f0
  · rw [hm1] at h; exact absurd h (by simp)
  rw [hm1] at h
  dsimp only at h
  rcases hm2 : (if "customer_id" ∈ f0.cols ∧ "customer_id" ∈ cust.cols then
      leftMerge f0 cust "customer_id" "_customer" else some f0) with _ | f1
  · rw [hm2] at h; exact absurd h (by simp)
  rw [hm2] at h
  dsimp only at h
  rcases hm3 : (if "product_id" ∈ f1.cols ∧ "product_id" ∈ prods.cols then
      leftMerge f1 prods "product_id" "_product" else some f1) with _ | f2
  · rw [hm3] at h; exact absurd h (by simp)
  rw [hm3] at h
  dsimp only at h
  split at h
  case h_1 => exact absurd h (by simp)
  case h_2 f4 hm4 =>
  obtain rfl := Option.some_inj.mp h
  simp [hguard]

/-- C1 (counterexample): on `c1in` the product join cannot be established —
`product_id` is absent from the product table — yet `transform` still emits
a fact table (joined to orders and customers only), refuting "fact building
is skipped entirely; it never emits a partially joined fact table". -/
theorem claim1_counterexample :
    "product_id" ∉ c1in.products.cols ∧ (factOf c1in).isSome = true :=
  ⟨by decide, by decide⟩

/-- C1 (amended): on every run where `transform` returns, a fact table is
present in the output exactly when the source's guard holds — the customer
key is in the order table, the order key is in the order table, and the
product key is in the order-item table.  A key missing only from the
customer or product dimension table does not skip fact building; it only
skips that one join. -/
theorem claim1_amended_thm (d : Dfs) (h : (transform d).isSome = true) :
    ((transform d).map (fun o => o.fact.isSome) = some true) ↔
      ("customer_id" ∈ d.orders.cols ∧ "order_id" ∈ d.orders.cols ∧
        "product_id" ∈ d.order_items.cols) := by
  obtain ⟨out, hout⟩ := Option.isSome_iff_exists.mp h
  obtain ⟨items, fct, hA, hB, houteq⟩ := transform_some_elim d out hout
  subst houteq
  rw [hout]
  have hiff := buildFact_some_isSome _ _ _ _ fct hB
  rw [cleanEntity_cols] at hiff
  have hitems : ("product_id" ∈ items.cols) ↔ ("product_id" ∈ d.order_items.cols) := by
    rcases addLineTotal_cols _ _ hA with hc | hc
    · rw [hc, cleanEntity_cols]
    · rw [hc, cleanEntity_cols, List.mem_append]
      simp only [List.mem_singleton]
      constructor
      · rintro (hm | hm)
        · exact hm
        · exact absurd hm (by decide)
      · exact fun hm => Or.inl hm
  rw [hitems] at hiff
  simpa using hiff

/-- C1 witness: a run satisfying the guard, on which `transform` returns
and the fact table is present. -/
theorem claim1_witness :
    (transform c1in).isSome = true ∧
    (transform c1in).map (fun o => o.fact.isSome) = some true :=
  ⟨by decide, (claim1_amended_thm c1in (by decide)).mpr (by decide)⟩

/-- C2: on `c2in` the order key is present in the order table but absent
from the order-item table, the guard passes, and the first merge raises —
`transform` does not return, contradicting "this stage never raises". -/
theorem claim2_code_eval : transform c2in = none := by decide

/-- C3 (counterexample): on the spec's own scenario the produced fact table
has no `name` column at all (the customer join is skipped because
`customer_id` is absent from the customer table, and `name` is not among
the retained fact columns), so its one row cannot have `name="Al"`. -/
theorem claim3_counterexample :
    (factOf c3in).map (fun f => decide ("name" ∈ f.cols)) = some false ∧
    (factOf c3in).map (fun f => getCell f.cols (f.rows.getD 0 []) "name") =
      some Value.null :=
  ⟨by decide, by decide⟩

/-- C3 (amended): on the scenario the fact table exists, has exactly one
row, `line_total = 19.98`, `order_year = 2024`, `order_month = 1`,
`order_day = 5` — but no `name` column (its columns are exactly the id,
date, numeric and derived date-part columns). -/
theorem claim3_amended_thm :
    (factOf c3in).map Table.cols =
      some ["order_id", "customer_id", "product_id", "order_date", "quantity", "unit_price",
        "line_total", "order_year", "order_month", "order_day"] ∧
    (factOf c3in).map (fun f => f.rows.length) = some 1 ∧
    (factOf c3in).map (fun f => getCell f.cols (f.rows.getD 0 []) "line_total") =
      some (Value.num (1998 / 100)) ∧
    (factOf c3in).map (fun f => getCell f.cols (f.rows.getD 0 []) "order_year") =
      some (Value.num 2024) ∧
    (factOf c3in).map (fun f => getCell f.cols (f.rows.getD 0 []) "order_month") =
      some (Value.num 1) ∧
    (factOf c3in).map (fun f => getCell f.cols (f.rows.getD 0 []) "order_day") =
      some (Value.num 5) := by
  rw [show (1998 / 100 : ℚ) = mkRat 999 50 by rw [Rat.mkRat_eq_div]; norm_num]
  exact ⟨by decide, by decide, by decide, by decide, by decide, by decide⟩

/-- C5: whenever a run of `transform` returns and produces a fact table,
the fact table has at most as many rows as the (deduplicated, line-total
derived) order-item table in the same output — the three left joins never
fan out, because each dimension table was deduplicated on its join key. -/
theorem claim5_thm (d : Dfs) (out : TOut) (f : Table)
    (h : transform d = some out) (hf : out.fact = some f) :
    f.rows.length ≤ out.order_items.rows.length := by
  obtain ⟨items, fct, hA, hB, houteq⟩ := transform_some_elim d out h
  subst houteq
  dsimp only at hf ⊢
  subst hf
  refine buildFact_fact_le _ _ _ _ f ?_ ?_ ?_ hB
  · intro hk
    exact cleanEntity_orders_nodup d.orders (by rwa [cleanEntity_cols] at hk)
  · intro hk
    rw [cleanEntity_cols] at hk ⊢
    exact cleanEntity_customers_nodup d.customers hk
  · intro hk
    rw [cleanEntity_cols] at hk ⊢
    exact cleanEntity_products_nodup d.products hk

/-- C5 witness: a concrete run producing a fact table, bounded by its
order-item row count. -/
theorem claim5_witness :
    transform c5in = some c5out ∧ c5out.fact = some c5fact ∧
    c5fact.rows.length ≤ c5out.order_items.rows.length :=
  ⟨by decide, by decide, claim5_thm c5in c5out c5fact (by decide) (by decide)⟩

/-- C9 (counterexample): in `FILES`, the `"orders"` path is
`.../products.csv` while `"order_items"` maps to `.../order_items.csv`, so
the two logical names are not routed to the same physical path. -/
theorem claim9_counterexample : filePath "orders" ≠ filePath "order_items" := by decide

/-- C9 (amended): the copy-paste aliasing in `FILES` is between `"orders"`
and `"products"`: both resolve to the products extract path (the absolute
second argument of `os.path.join` discards `DATA_DIR`). -/
theorem claim9_amended_thm :
    filePath "orders" = filePath "products" ∧
    filePath "orders" = some "/Users/thomassimmons/c/new/data/products.csv" :=
  ⟨by decide, by decide⟩

/-- C6: for every table and discovered key, `dedupe` keeps the rows in
input order (sublist), leaves no two rows with the same key projection
(nodup), keeps exactly one row per key value present (count), and that row
is the input's first row with that key value (find?); with no key the same
holds over whole rows. -/
theorem claim6_thm (t : Table) (ks : List String) (hne : ks ≠ [])
    (hks : ∀ k ∈ ks, k ∈ t.cols) :
    ((dedupe t (some ks)).rows.Sublist t.rows ∧
     ((dedupe t (some ks)).rows.map (keyProj t.cols ks)).Nodup ∧
     (∀ p, (dedupe t (some ks)).rows.countP (fun r => decide (keyProj t.cols ks r = p)) =
        min 1 (t.rows.countP (fun r => decide (keyProj t.cols ks r = p)))) ∧
     (∀ p, (dedupe t (some ks)).rows.find? (fun r => decide (keyProj t.cols ks r = p)) =
        t.rows.find? (fun r => decide (keyProj t.cols ks r = p)))) ∧
    ((dedupe t none).rows.Sublist t.rows ∧
     (dedupe t none).rows.Nodup ∧
     (∀ p, (dedupe t none).rows.countP (fun r => decide (r = p)) =
        min 1 (t.rows.countP (fun r => decide (r = p)))) ∧
     (∀ p, (dedupe t none).rows.find? (fun r => decide (r = p)) =
        t.rows.find? (fun r => decide (r = p)))) := by
  have hrows : (dedupe t (some ks)).rows = distinctBy (keyProj t.cols ks) t.rows [] := by
    show (if ks ≠ [] ∧ ∀ k ∈ ks, k ∈ t.cols then _ else _ : Table).rows = _
    rw [if_pos ⟨hne, hks⟩]
  have hrows0 : (dedupe t none).rows = distinctBy (fun r => r) t.rows [] := rfl
  constructor
  · rw [hrows]
    refine ⟨distinctBy_sublist _ _ _, distinctBy_map_nodup _ _ _, ?_, ?_⟩
    · intro p; exact distinctBy_countP _ _ _ p (by simp)
    · intro p; exact distinctBy_find? _ _ _ p (by simp)
  · rw [hrows0]
    refine ⟨distinctBy_sublist _ _ _, ?_, ?_, ?_⟩
    · have hnd := distinctBy_map_nodup (fun r => r) t.rows []
      simpa using hnd
    · intro p; exact distinctBy_countP _ _ _ p (by simp)
    · intro p; exact distinctBy_find? _ _ _ p (by simp)

/-- C6 witness: a table with a duplicated key `k` and differing non-key
cells; dedupe on `["k"]` is a sublist of the input with distinct keys. -/
theorem claim6_witness :
    ((["k"] : List String) ≠ [] ∧ ∀ k ∈ (["k"] : List String), k ∈ c6t.cols) ∧
    (dedupe c6t (some ["k"])).rows.Sublist c6t.rows ∧
    ((dedupe c6t (some ["k"])).rows.map (keyProj c6t.cols ["k"])).Nodup :=
  ⟨⟨by decide, by decide⟩,
    (claim6_thm c6t ["k"] (by decide) (by decide)).1.1,
    (claim6_thm c6t ["k"] (by decide) (by decide)).1.2.1⟩

/-- C7: on an order-item table with no surrogate key, the dedupe key is the
composite of exactly the present columns among
`{order_id, product_id, line_number}` when at least two are present, and
otherwise dedupe falls back to the whole-row key. -/
theorem claim7_thm (t : Table) (h1 : "order_item_id" ∉ t.cols) (h2 : "id" ∉ t.cols) :
    (2 ≤ (["order_id", "product_id", "line_number"].filter (t.cols.contains ·)).length →
      entityKey "order_items" t.cols =
        some (["order_id", "product_id", "line_number"].filter (t.cols.contains ·)) ∧
      cleanEntity "order_items" t =
        dedupe (coerceDates (coerceNumeric t (numericCandidates "order_items"))
            (dateCandidates "order_items"))
          (some (["order_id", "product_id", "line_number"].filter (t.cols.contains ·)))) ∧
    ((["order_id", "product_id", "line_number"].filter (t.cols.contains ·)).length < 2 →
      entityKey "order_items" t.cols = none ∧
      cleanEntity "order_items" t =
        dedupe (coerceDates (coerceNumeric t (numericCandidates "order_items"))
            (dateCandidates "order_items"))
          none) := by
  have hsk : singleKey ["order_item_id", "id"] t.cols = none := by
    rw [singleKey]
    have hf : ["order_item_id", "id"].filter (t.cols.contains ·) = [] := by
      simp only [List.filter_cons, List.filter_nil]
      rw [if_neg (by simpa using h1), if_neg (by simpa using h2)]
    rw [hf]
  have hek : entityKey "order_items" t.cols =
      (if 2 ≤ (["order_id", "product_id", "line_number"].filter (t.cols.contains ·)).length
       then some (["order_id", "product_id", "line_number"].filter (t.cols.contains ·))
       else none) := by
    rw [entityKey]
    simp only [String.reduceBEq, Bool.false_eq_true, if_false, if_true]
    rw [hsk]
  have hcle : cleanEntity "order_items" t =
      dedupe (coerceDates (coerceNumeric t (numericCandidates "order_items"))
        (dateCandidates "order_items"))
        (entityKey "order_items" t.cols) := by
    rw [cleanEntity]
    rw [coerceDates_cols, coerceNumeric_cols]
  constructor
  · intro hge
    rw [hek, if_pos hge] at hcle ⊢
    exact ⟨rfl, hcle⟩
  · intro hlt
    have hnot : ¬ 2 ≤ (["order_id", "product_id", "line_number"].filter
        (t.cols.contains ·)).length := by omega
    rw [hek, if_neg hnot] at hcle ⊢
    exact ⟨rfl, hcle⟩

/-- C7 witness: no surrogate key, `order_id` and `product_id` present —
the composite key is exactly those two columns. -/
theorem claim7_witness :
    ("order_item_id" ∉ c7t.cols ∧ "id" ∉ c7t.cols) ∧
    (2 ≤ (["order_id", "product_id", "line_number"].filter (c7t.cols.contains ·)).length →
      entityKey "order_items" c7t.cols =
        some (["order_id", "product_id", "line_number"].filter (c7t.cols.contains ·)) ∧
      cleanEntity "order_items" c7t =
        dedupe (coerceDates (coerceNumeric c7t (numericCandidates "order_items"))
            (dateCandidates "order_items"))
          (some (["order_id", "product_id", "line_number"].filter (c7t.cols.contains ·)))) :=
  ⟨⟨by decide, by decide⟩, (claim7_thm c7t (by decide) (by decide)).1⟩

/-- C10: `dedupe` treats missing markers as equal key values — of all rows
whose key cells are all missing, only the first survives (count is capped
at one and `find?` returns the input's first such row); under whole-row
dedupe the same holds for any full row value, missing markers included. -/
theorem claim10_thm (t : Table) (ks : List String) (hne : ks ≠ [])
    (hks : ∀ k ∈ ks, k ∈ t.cols) :
    ((dedupe t (some ks)).rows.countP
        (fun r => decide (keyProj t.cols ks r = List.replicate ks.length Value.null)) =
      min 1 (t.rows.countP
        (fun r => decide (keyProj t.cols ks r = List.replicate ks.length Value.null)))) ∧
    ((dedupe t (some ks)).rows.find?
        (fun r => decide (keyProj t.cols ks r = List.replicate ks.length Value.null)) =
      t.rows.find?
        (fun r => decide (keyProj t.cols ks r = List.replicate ks.length Value.null))) ∧
    (∀ p, (dedupe t none).rows.countP (fun r => decide (r = p)) =
      min 1 (t.rows.countP (fun r => decide (r = p)))) := by
  have hrows : (dedupe t (some ks)).rows = distinctBy (keyProj t.cols ks) t.rows [] := by
    show (if ks ≠ [] ∧ ∀ k ∈ ks, k ∈ t.cols then _ else _ : Table).rows = _
    rw [if_pos ⟨hne, hks⟩]
  refine ⟨?_, ?_, ?_⟩
  · rw [hrows]; exact distinctBy_countP _ _ _ _ (by simp)
  · rw [hrows]; exact distinctBy_find? _ _ _ _ (by simp)
  · intro p
    exact distinctBy_countP (fun r => r) t.rows [] p (by simp)

/-- C10 witness: two rows with a missing `customer_id`; after dedupe only
one such row remains, and it is the input's first. -/
theorem claim10_witness :
    ((["customer_id"] : List String) ≠ [] ∧
      ∀ k ∈ (["customer_id"] : List String), k ∈ c10t.cols) ∧
    ((dedupe c10t (some ["customer_id"])).rows.countP
        (fun r => decide (keyProj c10t.cols ["customer_id"] r =
          List.replicate (["customer_id"] : List String).length Value.null)) =
      min 1 (c10t.rows.countP
        (fun r => decide (keyProj c10t.cols ["customer_id"] r =
          List.replicate (["customer_id"] : List String).length Value.null)))) :=
  ⟨⟨by decide, by decide⟩, (claim10_thm c10t ["customer_id"] (by decide) (by decide)).1⟩

theorem getD_zipWith {α β γ : Type} (f : α → β → γ) (l1 : List α) (l2 : List β)
    (i : ℕ) (d1 : α) (d2 : β) (d : γ) (h1 : i < l1.length) (h2 : i < l2.length) :
    (List.zipWith f l1 l2).getD i d = f (l1.getD i d1) (l2.getD i d2) := by
  induction l1 generalizing l2 i with
  | nil => simp at h1
  | cons x xs ih =>
    cases l2 with
    | nil => simp at h2
    | cons y ys =>
      cases i with
      | zero => simp
      | succ n =>
        simp only [List.zipWith_cons_cons, List.getD_cons_succ]
        exact ih ys n (by simp only [List.length_cons] at h1; omega)
          (by simp only [List.length_cons] at h2; omega)

theorem getD_eq_getElem_of_lt {α : Type} (l : List α) (i : ℕ) (d : α) (h : i < l.length) :
    l.getD i d = l[i] := by
  rw [List.getD_eq_getElem?_getD, List.getElem?_eq_getElem h, Option.getD_some]

theorem ratMul_eq_mul (a b : ℚ) : ratMul a b = a * b := by
  rw [ratMul, Rat.mkRat_eq_divInt]
  push_cast
  rw [← Rat.divInt_mul_divInt', Rat.num_divInt_den, Rat.num_divInt_den]

theorem getCell_append_of_mem (cols ext : List String) (row ev : List Value) (c : String)
    (hc : c ∈ cols) (hlen : cols.length ≤ row.length) :
    getCell (cols ++ ext) (row ++ ev) c = getCell cols row c := by
  have hsome : (cols.findIdx? (· == c)).isSome = true := by
    rw [List.findIdx?_isSome]
    exact List.any_eq_true.mpr ⟨c, hc, by simp⟩
  obtain ⟨i, hi⟩ := Option.isSome_iff_exists.mp hsome
  obtain ⟨hilt, -, -⟩ := List.findIdx?_eq_some_iff_getElem.mp hi
  unfold getCell
  rw [List.findIdx?_append, hi, Option.or_some]
  dsimp only
  rw [List.getD_eq_getElem?_getD, List.getD_eq_getElem?_getD,
    List.getElem?_append_left (Nat.lt_of_lt_of_le hilt hlen)]

theorem getCell_append_self (cols : List String) (row : List Value) (c : String) (v : Value)
    (hc : c ∉ cols) (hlen : row.length = cols.length) :
    getCell (cols ++ [c]) (row ++ [v]) c = v := by
  unfold getCell
  rw [List.findIdx?_append, findIdx_beq_none _ _ hc, Option.none_or]
  have h0 : ([c].findIdx? (· == c)) = some 0 := by simp
  rw [h0]
  simp only [Option.map_some', Nat.zero_add]
  rw [List.getD_eq_getElem?_getD, ← hlen, List.getElem?_append_right (Nat.le_refl _)]
  simp

/-! ## Rectangularity through the pipeline -/

theorem mapCol_rect (t : Table) (c : String) (f : Value → Value) (hr : Rect t) :
    Rect (mapCol t c f) := by
  intro r hrm
  rw [mapCol_cols]
  rw [mapCol] at hrm
  rcases hidx : t.cols.findIdx? (· == c) with _ | i
  · rw [hidx] at hrm
    exact hr r hrm
  · rw [hidx] at hrm
    obtain ⟨r0, hr0, hset⟩ := List.mem_map.mp hrm
    rw [← hset, List.length_set]
    exact hr r0 hr0

theorem coerceNumeric_rect (t : Table) (cs : List String) (hr : Rect t) :
    Rect (coerceNumeric t cs) := by
  rw [coerceNumeric]
  induction cs generalizing t with
  | nil => exact hr
  | cons c cs ih => exact ih _ (mapCol_rect _ _ _ hr)

theorem coerceDates_rect (t : Table) (cs : List String) (hr : Rect t) :
    Rect (coerceDates t cs) := by
  rw [coerceDates]
  induction cs generalizing t with
  | nil => exact hr
  | cons c cs ih => exact ih _ (mapCol_rect _ _ _ hr)

theorem dedupe_rect (t : Table) (k : Option (List String)) (hr : Rect t) :
    Rect (dedupe t k) := by
  intro r hrm
  rw [dedupe_cols]
  refine hr r ?_
  rcases k with _ | ks
  · exact (distinctBy_sublist _ _ _).mem hrm
  · revert hrm
    show r ∈ (if ks ≠ [] ∧ ∀ x ∈ ks, x ∈ t.cols then _ else _ : Table).rows → _
    split
    · exact fun hrm => (distinctBy_sublist _ _ _).mem hrm
    · exact fun hrm => (distinctBy_sublist _ _ _).mem hrm

theorem cleanEntity_rect (name : String) (t : Table) (hr : Rect t) :
    Rect (cleanEntity name t) := by
  rw [cleanEntity]
  exact dedupe_rect _ _ (coerceDates_rect _ _ (coerceNumeric_rect _ _ hr))

/-- The derive-totals block: on a rectangular table lacking `line_total`
but having `quantity` and `unit_price`, the result gains a `line_total`
column equal rowwise to the exact product wherever both factors are
numeric. -/
theorem addLineTotal_derives (t u : Table) (hr : Rect t)
    (h1 : "line_total" ∉ t.cols) (h2 : "quantity" ∈ t.cols) (h3 : "unit_price" ∈ t.cols)
    (h : addLineTotal t = some u) :
    "line_total" ∈ u.cols ∧ lineTotalIsProduct u := by
  rw [addLineTotal, if_neg h1, if_pos ⟨h2, h3⟩] at h
  rcases hq : colAstypeFloat t "quantity" with _ | qs
  · rw [hq] at h; exact absurd h (by simp)
  rw [hq] at h
  rcases hu : colAstypeFloat t "unit_price" with _ | us
  · rw [hu] at h; exact absurd h (by simp)
  rw [hu] at h
  obtain rfl := (Option.some_inj.mp h)
  have hqs : qs = (colCells t "quantity").map (fun v => (astypeFloat v).getD Value.null) := by
    rw [colAstypeFloat] at hq
    split at hq
    · exact (Option.some_inj.mp hq).symm
    · exact absurd hq (by simp)
  have hus : us = (colCells t "unit_price").map (fun v => (astypeFloat v).getD Value.null) := by
    rw [colAstypeFloat] at hu
    split at hu
    · exact (Option.some_inj.mp hu).symm
    · exact absurd hu (by simp)
  have hql : qs.length = t.rows.length := by rw [hqs, List.length_map, colCells_length]
  have hul : us.length = t.rows.length := by rw [hus, List.length_map, colCells_length]
  have hcols : (setCol t "line_total" (List.zipWith mulValues qs us)).cols =
      t.cols ++ ["line_total"] := by
    rw [setCol, findIdx_beq_none _ _ h1]
  have hrows : (setCol t "line_total" (List.zipWith mulValues qs us)).rows =
      List.zipWith (fun r v => r ++ [v]) t.rows (List.zipWith mulValues qs us) := by
    rw [setCol, findIdx_beq_none _ _ h1]
  constructor
  · rw [hcols]
    simp
  · intro i hi a b hqa hub
    have hlen : (setCol t "line_total" (List.zipWith mulValues qs us)).rows.length =
        t.rows.length := by
      rw [hrows, List.length_zipWith, List.length_zipWith, hql, hul]
      omega
    have hit : i < t.rows.length := hlen ▸ hi
    have hrow : (setCol t "line_total" (List.zipWith mulValues qs us)).rows.getD i [] =
        t.rows.getD i [] ++ [mulValues (qs.getD i Value.null) (us.getD i Value.null)] := by
      rw [hrows, getD_zipWith (fun r v => r ++ [v]) t.rows (List.zipWith mulValues qs us) i
          [] Value.null [] hit (by rw [List.length_zipWith]; omega),
        getD_zipWith mulValues qs us i Value.null Value.null Value.null (by omega) (by omega)]
    have hrlen : (t.rows.getD i []).length = t.cols.length := by
      rw [List.getD_eq_getElem?_getD, List.getElem?_eq_getElem hit]
      exact hr _ (List.getElem_mem _)
    rw [hrow, hcols] at hqa hub ⊢
    rw [getCell_append_of_mem _ _ _ _ _ h2 (by omega)] at hqa
    rw [getCell_append_of_mem _ _ _ _ _ h3 (by omega)] at hub
    have hrowe : t.rows.getD i [] = t.rows[i] := getD_eq_getElem_of_lt _ _ _ hit
    have hcq : (colCells t "quantity").getD i Value.null =
        getCell t.cols (t.rows.getD i []) "quantity" := by
      rw [colCells, getD_eq_getElem_of_lt _ _ _ (by rw [List.length_map]; omega),
        List.getElem_map, hrowe]
    have hcu : (colCells t "unit_price").getD i Value.null =
        getCell t.cols (t.rows.getD i []) "unit_price" := by
      rw [colCells, getD_eq_getElem_of_lt _ _ _ (by rw [List.length_map]; omega),
        List.getElem_map, hrowe]
    have hibq : i < (colCells t "quantity").length := by rw [colCells_length]; omega
    have hibu : i < (colCells t "unit_price").length := by rw [colCells_length]; omega
    have hqi : qs.getD i Value.null = Value.num a := by
      rw [hqs, getD_eq_getElem_of_lt _ _ _ (by rw [List.length_map]; omega), List.getElem_map]
      show (astypeFloat ((colCells t "quantity")[i])).getD Value.null = _
      rw [← getD_eq_getElem_of_lt _ i Value.null hibq, hcq, hqa]
      rfl
    have hui : us.getD i Value.null = Value.num b := by
      rw [hus, getD_eq_getElem_of_lt _ _ _ (by rw [List.length_map]; omega), List.getElem_map]
      show (astypeFloat ((colCells t "unit_price")[i])).getD Value.null = _
      rw [← getD_eq_getElem_of_lt _ i Value.null hibu, hcu, hub]
      rfl
    rw [getCell_append_self _ _ _ _ h1 hrlen, hqi, hui]
    show Value.num (ratMul a b) = Value.num (a * b)
    rw [ratMul_eq_mul]

/-- C4: on any run whose (rectangular) order-item input lacks `line_total`
but has `quantity` and `unit_price`, the transformed order-item table
carries a `line_total` column equal to `quantity × unit_price` exactly in
every row where both are numeric; and the identical derivation block holds
for any table it is applied to — in particular the pruned fact table. -/
theorem claim4_thm (d : Dfs) (hr : Rect d.order_items)
    (h1 : "line_total" ∉ d.order_items.cols) (h2 : "quantity" ∈ d.order_items.cols)
    (h3 : "unit_price" ∈ d.order_items.cols) :
    (∀ out, transform d = some out →
      "line_total" ∈ out.order_items.cols ∧ lineTotalIsProduct out.order_items) ∧
    (∀ t u, Rect t → "line_total" ∉ t.cols → "quantity" ∈ t.cols → "unit_price" ∈ t.cols →
      addLineTotal t = some u → "line_total" ∈ u.cols ∧ lineTotalIsProduct u) := by
  constructor
  · intro out hout
    obtain ⟨items, fct, hA, hB, houteq⟩ := transform_some_elim d out hout
    subst houteq
    dsimp only
    refine addLineTotal_derives _ _ ?_ ?_ ?_ ?_ hA
    · exact cleanEntity_rect _ _ hr
    · rw [cleanEntity_cols]; exact h1
    · rw [cleanEntity_cols]; exact h2
    · rw [cleanEntity_cols]; exact h3
  · intro t u hrt ha hb hc hadd
    exact addLineTotal_derives t u hrt ha hb hc hadd

/-- C4 witness: a concrete rectangular order-item table without
`line_total`; the transform output derives it. -/
theorem claim4_witness :
    (Rect c4in.order_items ∧ "line_total" ∉ c4in.order_items.cols ∧
      "quantity" ∈ c4in.order_items.cols ∧ "unit_price" ∈ c4in.order_items.cols) ∧
    (∀ out, transform c4in = some out →
      "line_total" ∈ out.order_items.cols ∧ lineTotalIsProduct out.order_items) :=
  ⟨⟨by decide, by decide, by decide, by decide⟩,
    (claim4_thm c4in (by decide) (by decide) (by decide) (by decide)).1⟩

/-! ## Character-level groundwork for `snake` idempotence -/

theorem uint32_le_iff {a b : UInt32} : a ≤ b ↔ a.toNat ≤ b.toNat := Iff.rfl

theorem uint32_eq_of_toNat_eq {a b : UInt32} (h : a.toNat = b.toNat) : a = b := by
  cases a with
  | mk av =>
    cases b with
    | mk bv =>
      congr 1
      exact BitVec.eq_of_toNat_eq h

theorem char_eq_of_toNat_eq {c d : Char} (h : c.toNat = d.toNat) : c = d :=
  Char.eq_of_val_eq (uint32_eq_of_toNat_eq h)

theorem char_toNat_ofNat_of_lt {n : ℕ} (h : n < 55296) : (Char.ofNat n).toNat = n := by
  rw [Char.ofNat, dif_pos (Or.inl h : n.isValidChar)]
  rfl

theorem toLower_def (c : Char) :
    c.toLower = if 65 ≤ c.toNat ∧ c.toNat ≤ 90 then Char.ofNat (c.toNat + 32) else c := rfl

theorem toLower_toNat_upper {c : Char} (h : 65 ≤ c.toNat ∧ c.toNat ≤ 90) :
    c.toLower.toNat = c.toNat + 32 := by
  rw [toLower_def, if_pos h]
  exact char_toNat_ofNat_of_lt (by omega)

theorem toLower_eq_self {c : Char} (h : ¬(65 ≤ c.toNat ∧ c.toNat ≤ 90)) : c.toLower = c := by
  rw [toLower_def, if_neg h]

theorem toLower_idem (c : Char) : c.toLower.toLower = c.toLower := by
  by_cases h : 65 ≤ c.toNat ∧ c.toNat ≤ 90
  · have hn := toLower_toNat_upper h
    exact toLower_eq_self (by omega)
  · rw [toLower_eq_self h, toLower_eq_self h]

theorem toLower_underscore {c : Char} : c.toLower = '_' ↔ c = '_' := by
  constructor
  · intro h
    by_cases hu : 65 ≤ c.toNat ∧ c.toNat ≤ 90
    · exfalso
      have h1 := toLower_toNat_upper hu
      have h2 : c.toLower.toNat = 95 := by rw [h]; rfl
      omega
    · rwa [toLower_eq_self hu] at h
  · rintro rfl
    decide

theorem ofNat_uint32_le_iff (n : ℕ) (hn : n < 4294967296) (c : UInt32) :
    ((OfNat.ofNat n : UInt32) ≤ c) ↔ n ≤ c.toNat := by
  rw [uint32_le_iff]
  have he : (OfNat.ofNat n : UInt32).toNat = n := UInt32.toNat_ofNat_of_lt hn
  rw [he]

theorem uint32_le_ofNat_iff (n : ℕ) (hn : n < 4294967296) (c : UInt32) :
    (c ≤ (OfNat.ofNat n : UInt32)) ↔ c.toNat ≤ n := by
  rw [uint32_le_iff]
  have he : (OfNat.ofNat n : UInt32).toNat = n := UInt32.toNat_ofNat_of_lt hn
  rw [he]

theorem isUpper_iff (c : Char) : c.isUpper = true ↔ 65 ≤ c.toNat ∧ c.toNat ≤ 90 := by
  rw [Char.isUpper]
  simp only [Bool.and_eq_true, decide_eq_true_eq, ge_iff_le]
  rw [ofNat_uint32_le_iff 65 (by omega), uint32_le_ofNat_iff 90 (by omega)]
  exact Iff.rfl

theorem isLower_iff (c : Char) : c.isLower = true ↔ 97 ≤ c.toNat ∧ c.toNat ≤ 122 := by
  rw [Char.isLower]
  simp only [Bool.and_eq_true, decide_eq_true_eq, ge_iff_le]
  rw [ofNat_uint32_le_iff 97 (by omega), uint32_le_ofNat_iff 122 (by omega)]
  exact Iff.rfl

theorem isDigit_iff (c : Char) : c.isDigit = true ↔ 48 ≤ c.toNat ∧ c.toNat ≤ 57 := by
  rw [Char.isDigit]
  simp only [Bool.and_eq_true, decide_eq_true_eq, ge_iff_le]
  rw [ofNat_uint32_le_iff 48 (by omega), uint32_le_ofNat_iff 57 (by omega)]
  exact Iff.rfl

theorem beq_underscore_iff (c : Char) : (c == '_') = true ↔ c.toNat = 95 := by
  rw [beq_iff_eq]
  constructor
  · rintro rfl; rfl
  · intro h
    exact char_eq_of_toNat_eq (by rw [h]; rfl)

theorem isWordChar_iff (c : Char) : isWordChar c = true ↔
    ((65 ≤ c.toNat ∧ c.toNat ≤ 90) ∨ (97 ≤ c.toNat ∧ c.toNat ≤ 122) ∨
     (48 ≤ c.toNat ∧ c.toNat ≤ 57) ∨ c.toNat = 95) := by
  rw [isWordChar, Char.isAlphanum, Char.isAlpha]
  simp only [Bool.or_eq_true, isUpper_iff, isLower_iff, isDigit_iff, beq_underscore_iff]
  tauto

theorem word_not_ws {c : Char} (h : isWordChar c = true) : c.isWhitespace = false := by
  cases hb : c.isWhitespace with
  | false => rfl
  | true =>
    exfalso
    have hw := hb
    rw [Char.isWhitespace] at hw
    simp only [Bool.or_eq_true, decide_eq_true_eq] at hw
    rcases hw with ((h1 | h1) | h1) | h1 <;> subst h1 <;> exact absurd h (by decide)

theorem isWordChar_toLower {c : Char} (h : isWordChar c = true) :
    isWordChar c.toLower = true := by
  by_cases hu : 65 ≤ c.toNat ∧ c.toNat ≤ 90
  · have hn := toLower_toNat_upper hu
    rw [isWordChar_iff]
    right; left
    omega
  · rwa [toLower_eq_self hu]

/-! ## List-level normal form of `snake` output -/

/-- No two adjacent underscores. -/
def noConsecUnd (l : List Char) : Prop :=
  List.Chain' (fun a b => ¬(a = '_' ∧ b = '_')) l

/-- The normal form that `snakeList` produces: word characters only, all
lowercase, no doubled underscore, no underscore at either end. -/
def SnakeNormal (l : List Char) : Prop :=
  (∀ c ∈ l, isWordChar c = true ∧ c.toLower = c) ∧
  noConsecUnd l ∧ l.head? ≠ some '_' ∧ l.getLast? ≠ some '_'

theorem head_dropWhile_false (p : Char → Bool) (l : List Char) :
    ∀ y ∈ (l.dropWhile p).head?, p y = false := by
  induction l with
  | nil => simp
  | cons a as ih =>
    by_cases ha : p a
    · rw [List.dropWhile_cons_of_pos ha]
      exact ih
    · rw [List.dropWhile_cons_of_neg ha]
      intro y hy
      simp only [List.head?_cons, Option.mem_def, Option.some_inj] at hy
      subst hy
      exact Bool.eq_false_iff.mpr ha

theorem rdropWhile_leading (p : Char → Bool) (l : List Char) :
    List.rdropWhile p l <+: l := by
  rw [List.rdropWhile, ← List.reverse_suffix, List.reverse_reverse]
  exact List.dropWhile_suffix p

theorem subNonWord_word (l : List Char) : ∀ c ∈ subNonWord l, isWordChar c = true := by
  induction l using subNonWord.induct with
  | case1 => simp [subNonWord]
  | case2 c cs hc ih =>
    rw [subNonWord, if_pos hc]
    intro x hx
    rcases List.mem_cons.mp hx with rfl | hx
    · exact hc
    · exact ih x hx
  | case3 c cs hc ih =>
    rw [subNonWord, if_neg hc]
    intro x hx
    rcases List.mem_cons.mp hx with rfl | hx
    · decide
    · exact ih x hx

theorem collapseUnd_subset (l : List Char) : ∀ c ∈ collapseUnd l, c ∈ l := by
  induction l using collapseUnd.induct with
  | case1 => simp [collapseUnd]
  | case2 cs ih =>
    rw [collapseUnd, if_pos rfl]
    intro x hx
    rcases List.mem_cons.mp hx with rfl | hx
    · exact List.mem_cons_self _ _
    · exact List.mem_cons_of_mem _ (List.dropWhile_subset _ (ih x hx))
  | case3 c cs hc ih =>
    rw [collapseUnd, if_neg hc]
    intro x hx
    rcases List.mem_cons.mp hx with rfl | hx
    · exact List.mem_cons_self _ _
    · exact List.mem_cons_of_mem _ (ih x hx)

theorem collapseUnd_head (l : List Char) : (collapseUnd l).head? = l.head? := by
  cases l with
  | nil => simp [collapseUnd]
  | cons c cs =>
    rw [collapseUnd]
    split <;> rfl

theorem collapseUnd_noConsec (l : List Char) : noConsecUnd (collapseUnd l) := by
  induction l using collapseUnd.induct with
  | case1 => simp [collapseUnd, noConsecUnd]
  | case2 cs ih =>
    rw [collapseUnd, if_pos rfl]
    rw [noConsecUnd, List.chain'_cons']
    refine ⟨?_, ih⟩
    intro y hy
    rw [collapseUnd_head] at hy
    have hfy := head_dropWhile_false (fun x => decide (x = '_')) cs y hy
    rw [decide_eq_false_iff_not] at hfy
    exact fun hp => hfy hp.2
  | case3 c cs hc ih =>
    rw [collapseUnd, if_neg hc]
    rw [noConsecUnd, List.chain'_cons']
    exact ⟨fun y _ hp => hc hp.1, ih⟩

theorem stripUnd_subset (l : List Char) : ∀ c ∈ stripUnd l, c ∈ l := by
  intro c hc
  rw [stripUnd, List.rdropWhile] at hc
  rw [List.mem_reverse] at hc
  have h1 := List.dropWhile_subset _ hc
  rw [List.mem_reverse] at h1
  exact List.dropWhile_subset _ h1

theorem stripUnd_noConsec (l : List Char) (h : noConsecUnd l) : noConsecUnd (stripUnd l) := by
  rw [stripUnd]
  have h1 : noConsecUnd (l.dropWhile (· = '_')) :=
    List.Chain'.suffix h (List.dropWhile_suffix _)
  exact List.Chain'.infix h1 ( List.IsPrefix.isInfix (rdropWhile_leading _ _))

theorem stripUnd_head (l : List Char) : (stripUnd l).head? ≠ some '_' := by
  intro hh
  rcases hst : stripUnd l with _ | ⟨c, cs⟩
  · rw [hst] at hh
    exact absurd hh (by simp)
  · rw [hst] at hh
    simp only [List.head?_cons, Option.some_inj] at hh
    subst hh
    have hne : stripUnd l ≠ [] := by rw [hst]; simp
    rw [stripUnd] at hst
    obtain ⟨t, ht⟩ := rdropWhile_leading (· = '_') (l.dropWhile (· = '_'))
    have hht : (l.dropWhile (· = '_')).head? = some '_' := by
      rw [← ht, hst]
      simp
    have := head_dropWhile_false (fun x => decide (x = '_')) l '_' hht
    simp at this
  
theorem stripUnd_last (l : List Char) : (stripUnd l).getLast? ≠ some '_' := by
  intro hh
  have hne : stripUnd l ≠ [] := by
    intro hnil
    rw [hnil] at hh
    exact absurd hh (by simp)
  have hlast := List.rdropWhile_last_not (· = '_') (l.dropWhile (· = '_'))
    (by rw [stripUnd] at hne; exact hne)
  rw [stripUnd] at hh hne
  rw [List.getLast?_eq_getLast _ hne] at hh
  rw [Option.some_inj] at hh
  rw [hh] at hlast
  simp at hlast

theorem lowerList_word_lower (l : List Char) (hw : ∀ c ∈ l, isWordChar c = true) :
    ∀ c ∈ lowerList l, isWordChar c = true ∧ c.toLower = c := by
  intro c hc
  rw [lowerList] at hc
  obtain ⟨x, hx, rfl⟩ := List.mem_map.mp hc
  exact ⟨isWordChar_toLower (hw x hx), toLower_idem x⟩

theorem lowerList_noConsec (l : List Char) (h : noConsecUnd l) :
    noConsecUnd (lowerList l) := by
  rw [lowerList, noConsecUnd, List.chain'_map]
  refine h.imp ?_
  intro a b hab hlow
  exact hab ⟨toLower_underscore.mp hlow.1, toLower_underscore.mp hlow.2⟩

theorem lowerList_head (l : List Char) (h : l.head? ≠ some '_') :
    (lowerList l).head? ≠ some '_' := by
  rw [lowerList, List.head?_map]
  intro hc
  rcases hl : l.head? with _ | c
  · rw [hl] at hc; exact absurd hc (by simp)
  · rw [hl] at hc
    simp only [Option.map_some', Option.some_inj] at hc
    exact h (by rw [hl, toLower_underscore.mp hc])

theorem lowerList_last (l : List Char) (h : l.getLast? ≠ some '_') :
    (lowerList l).getLast? ≠ some '_' := by
  rw [lowerList, List.getLast?_map]
  intro hc
  rcases hl : l.getLast? with _ | c
  · rw [hl] at hc; exact absurd hc (by simp)
  · rw [hl] at hc
    simp only [Option.map_some', Option.some_inj] at hc
    exact h (by rw [hl, toLower_underscore.mp hc])

theorem snakeList_normal (l : List Char) : SnakeNormal (snakeList l) := by
  rw [snakeList]
  have hB := subNonWord_word (trimChars l)
  have hCw : ∀ c ∈ collapseUnd (subNonWord (trimChars l)), isWordChar c = true :=
    fun c hc => hB c (collapseUnd_subset _ c hc)
  have hCn := collapseUnd_noConsec (subNonWord (trimChars l))
  have hDw : ∀ c ∈ stripUnd (collapseUnd (subNonWord (trimChars l))), isWordChar c = true :=
    fun c hc => hCw c (stripUnd_subset _ c hc)
  have hDn := stripUnd_noConsec _ hCn
  have hDh := stripUnd_head (collapseUnd (subNonWord (trimChars l)))
  have hDl := stripUnd_last (collapseUnd (subNonWord (trimChars l)))
  exact ⟨lowerList_word_lower _ hDw, lowerList_noConsec _ hDn,
    lowerList_head _ hDh, lowerList_last _ hDl⟩

theorem subNonWord_eq_self (l : List Char) (hw : ∀ c ∈ l, isWordChar c = true) :
    subNonWord l = l := by
  induction l with
  | nil => rw [subNonWord]
  | cons c cs ih =>
    rw [subNonWord, if_pos (hw c (List.mem_cons_self _ _))]
    rw [ih (fun x hx => hw x (List.mem_cons_of_mem _ hx))]

theorem collapseUnd_eq_self (l : List Char) (hnc : noConsecUnd l) : collapseUnd l = l := by
  induction l with
  | nil => rw [collapseUnd]
  | cons c cs ih =>
    have htail : noConsecUnd cs := List.Chain'.tail hnc
    by_cases hc : c = '_'
    · rw [collapseUnd, if_pos hc]
      cases cs with
      | nil => simp [collapseUnd]
      | cons d ds =>
        have hd : ¬(c = '_' ∧ d = '_') := (List.chain'_cons.mp hnc).1
        have hdne : ¬(decide (d = '_') = true) := by
          simp only [decide_eq_true_eq]
          exact fun hdd => hd ⟨hc, hdd⟩
        have hstep : List.dropWhile (fun x => decide (x = '_')) (d :: ds) = d :: ds :=
          List.dropWhile_cons_of_neg hdne
        rw [hstep, ih htail]
    · rw [collapseUnd, if_neg hc, ih htail]

theorem stripUnd_eq_self (l : List Char) (hh : l.head? ≠ some '_') (ht : l.getLast? ≠ some '_') :
    stripUnd l = l := by
  rw [stripUnd]
  have hd : l.dropWhile (· = '_') = l := by
    rw [List.dropWhile_eq_self_iff]
    intro hlen
    simp only [decide_eq_true_eq]
    intro hget
    apply hh
    rw [List.head?_eq_getElem?, List.getElem?_eq_getElem hlen]
    rw [Option.some_inj, ← hget]
    rfl
  rw [hd, List.rdropWhile_eq_self_iff]
  intro hne
  simp only [decide_eq_true_eq]
  intro hlast
  exact ht (by rw [List.getLast?_eq_getLast _ hne, hlast])

theorem lowerList_eq_self (l : List Char) (hw : ∀ c ∈ l, c.toLower = c) : lowerList l = l := by
  rw [lowerList]
  induction l with
  | nil => rfl
  | cons c cs ih =>
    rw [List.map_cons, hw c (List.mem_cons_self _ _),
      ih (fun x hx => hw x (List.mem_cons_of_mem _ hx))]

theorem trimChars_eq_self (l : List Char) (hw : ∀ c ∈ l, isWordChar c = true) :
    trimChars l = l := by
  rw [trimChars]
  have hd : l.dropWhile Char.isWhitespace = l := by
    rw [List.dropWhile_eq_self_iff]
    intro hlen
    rw [word_not_ws (hw _ (List.get_mem l 0 hlen))]
    simp
  rw [hd, List.rdropWhile_eq_self_iff]
  intro hne
  rw [word_not_ws (hw _ (List.getLast_mem hne))]
  simp

theorem snakeList_fixed (l : List Char) (hl : SnakeNormal l) : snakeList l = l := by
  obtain ⟨hw, hnc, hh, ht⟩ := hl
  have hw1 : ∀ c ∈ l, isWordChar c = true := fun c hc => (hw c hc).1
  rw [snakeList, trimChars_eq_self l hw1, subNonWord_eq_self l hw1,
    collapseUnd_eq_self l hnc, stripUnd_eq_self l hh ht,
    lowerList_eq_self l (fun c hc => (hw c hc).2)]

/-- C8: the column-name normalization `snake` is idempotent — normalizing a
name twice yields exactly the name normalized once. -/
theorem claim8_thm (s : String) : snake (snake s) = snake s := by
  show String.mk (snakeList (String.mk (snakeList s.data)).data) = String.mk (snakeList s.data)
  show String.mk (snakeList (snakeList s.data)) = String.mk (snakeList s.data)
  congr 1
  exact snakeList_fixed _ (snakeList_normal s.data)
